import Mathlib

/-!
Verification of the reconciliation and download core of `rs_manifest_patcher`.

The Rust sources are embedded shallowly:
* `src/transaction.rs`: `Status`, `FileOperation`, `FileOperation::process`,
  `Transaction` and its aggregate queries, and `Transaction::download`.
* `src/format.rs`: `eta_to_human_readable`.
* `src/progress.rs`: `Progress` and `Progress::create_progress_bar`.

Modelling conventions:
* the local filesystem is a function `String → Option (List Nat)` from full
  paths to file bytes (`none` = the path does not exist);
* the MD5 digest (external `md5` crate) is an explicit parameter
  `md5_hex : List Nat → String` of the functions that use it;
* `f64` values (elapsed seconds, speeds, ETAs) are modelled as exact
  rationals `ℚ`; machine integers as `Int`/`Nat` (the relevant quantities
  never overflow their 64-bit ranges in the claims considered);
* panics (`assert!`, `try_into().unwrap()`) and `?`-propagated errors are
  modelled with `Option`/`Except`;
* the effectful pieces of `Transaction::download` (HTTP client, tokio fs,
  wall clock) are a record of abstract effect handlers `DlEnv`, and the
  observable behaviour is the ordered list of emitted events (`Ev`)
  together with the final `Except` result.
-/

namespace Patcher

/-- `enum Status` from src/transaction.rs. -/
inductive Status where
  | Present
  | OutOfDate
  | Missing
  deriving DecidableEq, Repr

/-- `struct PatchFile` from src/manifest.rs, in the shape used by
src/transaction.rs. The copy of manifest.rs under src/ predates the
provider-URL map (it has a single `url` field and no `Provider`);
the `urls` field is modelled from the spec (§3): a mapping from provider
identifier to URL. -/
structure PatchFile where
  path : String
  hash : String
  size : Int
  custom : Bool
  urls : List (String × String)
  deriving DecidableEq, Repr

/-- Modelled from the spec: `PatchFile::get_url` is called by
src/transaction.rs but is not present in the copy of src/manifest.rs under
src/. Spec §4.3 step 2: look up the provider in `descriptor.urls`; if
absent, fall back to the `"none"` provider key; if neither exists the
lookup fails (`none`). -/
def PatchFile.get_url (f : PatchFile) (provider : String) : Option String :=
  match f.urls.lookup provider with
  | some u => some u
  | none => f.urls.lookup "none"

/-- `struct Manifest` from src/manifest.rs. The `uid` field is used by
src/transaction.rs (`manifest.uid`) but missing from the older copy of
manifest.rs under src/; it is modelled from the spec (§3). -/
structure Manifest where
  version : String
  uid : String
  files : List PatchFile
  deriving DecidableEq, Repr

/-- `struct FileOperation` from src/transaction.rs. -/
structure FileOperation where
  patch_file : PatchFile
  size : Int
  status : Status
  deriving DecidableEq, Repr

/-- `base_path.join(&file.path)` for the relative manifest paths. -/
def joinPath (base rel : String) : String := base ++ "/" ++ rel

/-- `FileOperation::process` from src/transaction.rs (lines 38-80):
classify every manifest descriptor against the local filesystem.
`md5_hex` abstracts `format!("\x7bdigest:x\x7d")` of `md5::compute` from the
external `md5` crate; `fs` abstracts the local filesystem. A present file
is read and hashed; its on-disk size is the byte length of its contents. -/
def FileOperation.process (md5_hex : List Nat → String) (manifest : Manifest)
    (base_path : String) (fs : String → Option (List Nat)) : List FileOperation :=
  manifest.files.map (fun file =>
    match fs (joinPath base_path file.path) with
    | none =>
        { status := Status.Missing
          patch_file := file
          size := 0 }
    | some contents =>
        let digest_str := md5_hex contents
        let new_size : Int := contents.length
        { status := if digest_str = file.hash then Status.Present else Status.OutOfDate
          patch_file := file
          size := new_size })

/-- `struct Transaction` from src/transaction.rs. -/
structure Transaction where
  operations : List FileOperation
  manifest_version : String
  manifest_uid : String
  base_path : String
  deriving DecidableEq, Repr

/-- `Transaction::new` from src/transaction.rs. -/
def Transaction.new (md5_hex : List Nat → String) (manifest : Manifest)
    (base_path : String) (fs : String → Option (List Nat)) : Transaction :=
  { operations := FileOperation.process md5_hex manifest base_path fs
    manifest_version := manifest.version
    manifest_uid := manifest.uid
    base_path := base_path }

/-- `Transaction::pending` from src/transaction.rs. -/
def Transaction.pending (t : Transaction) : List FileOperation :=
  t.operations.filter (fun x => x.status != Status.Present)

/-- `Transaction::pending_count` from src/transaction.rs. -/
def Transaction.pending_count (t : Transaction) : Nat :=
  (t.operations.filter (fun x => x.status != Status.Present)).length

/-- `Transaction::has_pending_operations` from src/transaction.rs. -/
def Transaction.has_pending_operations (t : Transaction) : Prop :=
  0 < t.pending_count

/-- `Transaction::total_download_size` from src/transaction.rs
(lines 256-268). The `assert!(total >= 0, ...)` is modelled by returning
`none` exactly when the assertion would fire. -/
def Transaction.total_download_size (t : Transaction) : Option Int :=
  let total : Int :=
    ((t.operations.filter (fun x => x.status != Status.Present)).map
      (fun x => x.patch_file.size)).sum
  if 0 ≤ total then some total else none

/-- `Transaction::disk_space_change` from src/transaction.rs
(lines 270-276). -/
def Transaction.disk_space_change (t : Transaction) : Int :=
  ((t.operations.filter (fun x => x.status != Status.Present)).map
    (fun x => x.patch_file.size - x.size)).sum

/-- Truncation toward zero of a rational, as performed by Rust `f64`
arithmetic when computing `a % b` (`a - b * trunc(a / b)`). -/
def qtrunc (x : ℚ) : ℤ := if 0 ≤ x then ⌊x⌋ else ⌈x⌉

/-- Rust `f64` remainder `a % b`: `a - b * trunc(a / b)` (sign of the
dividend), over exact rationals. -/
def fmod (a b : ℚ) : ℚ := a - b * (qtrunc (a / b) : ℚ)

/-- Rust `format!("\x7b:02\x7d", n)`: decimal rendering left-padded with
zeros to width two. -/
def pad2 (n : Nat) : String := if n < 10 then "0" ++ toString n else toString n

/-- `eta_to_human_readable` from src/format.rs (lines 24-40), with `f64`
modelled as `ℚ`. The `.floor()` results are kept as integers and the
`as u32` casts (saturating at 0 from below) are `Int.toNat` at the
formatting sites, exactly where the source casts. -/
def eta_to_human_readable (seconds : ℚ) : String :=
  if seconds ≤ 0 ∨ 86400 < seconds then "--"
  else
    let hours : ℤ := ⌊seconds / 3600⌋
    let minutes : ℤ := ⌊(fmod seconds 3600) / 60⌋
    let secs : ℤ := ⌊fmod seconds 60⌋
    if 0 < hours then
      toString hours.toNat ++ "h" ++ pad2 minutes.toNat ++ "m" ++ pad2 secs.toNat ++ "s"
    else if 0 < minutes then
      toString minutes.toNat ++ "m" ++ pad2 secs.toNat ++ "s"
    else
      toString secs.toNat ++ "s"

/-- The duration format as the spec describes it (§4.5): `"--"` outside
`(0, 86400]`, else `HhMMmSSs` / `MmSSs` / `Ss` over the whole number of
seconds, minutes and seconds zero-padded to two digits whenever a larger
unit is present. Stated from the spec's words, to be compared with
`eta_to_human_readable` from the source. -/
def humanizeSpec (s : ℚ) : String :=
  if s ≤ 0 ∨ 86400 < s then "--"
  else
    let n : ℕ := ⌊s⌋₊
    if 3600 ≤ s then
      toString (n / 3600) ++ "h" ++ pad2 (n % 3600 / 60) ++ "m" ++ pad2 (n % 60) ++ "s"
    else if 60 ≤ s then
      toString (n / 60) ++ "m" ++ pad2 (n % 60) ++ "s"
    else
      toString n ++ "s"

/-- `"x".repeat(n)` for a one-character string, from src/progress.rs. -/
def repChar (n : Nat) (c : Char) : String := String.mk (List.replicate n c)

/-- The `filled` cell count of `Progress::create_progress_bar` from
src/progress.rs (lines 45-53): `(current as f64 / total as f64 * 20.0) as
usize`, with `f64` modelled as `ℚ` and the saturating nonnegative cast as
`Int.toNat` of the floor (truncation toward zero coincides with the floor
on the nonnegative quotients involved). -/
def barFilled (current total : Nat) : Nat :=
  (⌊(current : ℚ) / (total : ℚ) * 20⌋).toNat

/-- `Progress::create_progress_bar` from src/progress.rs (lines 45-53),
with `PROGRESS_BAR_WIDTH = 20`. -/
def create_progress_bar (current total : Nat) : String :=
  "[" ++ repChar (barFilled current total) '-'
      ++ repChar (20 - barFilled current total) ' ' ++ "]"

/-- `struct Progress` from src/progress.rs, with `f64` fields as `ℚ` and
`elapsed` (a `Duration`) as its value in seconds. -/
structure Progress where
  current : Nat
  file_index : Nat
  total_files : Nat
  speed : ℚ
  file_size : Nat
  elapsed : ℚ
  filename : String
  total_size_downloaded : Nat
  total_amount_left : Nat
  expected_time_left : ℚ
  total_download_size : Int
  deriving DecidableEq, Repr

/-- Splits a character list at `/` separators (helper for the `Path`
operations `parent` and `file_name` used by `Transaction::download`). -/
def splitSlash : List Char → List (List Char)
  | [] => [[]]
  | c :: rest =>
    let r := splitSlash rest
    if c = '/' then [] :: r
    else
      match r with
      | [] => [[c]]
      | h :: t => (c :: h) :: t

/-- Interleaves `/` back between components. -/
def joinSlash : List (List Char) → List Char
  | [] => []
  | [h] => h
  | h :: t => h ++ '/' :: joinSlash t

/-- `Path::parent` for the relative destination paths built by
`Transaction::download`: everything before the last `/`, or `none` when
the path has a single component. -/
def parentDir (p : String) : Option String :=
  let parts := splitSlash p.data
  if parts.length ≤ 1 then none
  else some (String.mk (joinSlash parts.dropLast))

/-- `dest_path.file_name().unwrap_or_default()` from src/transaction.rs:
the last `/`-separated component. -/
def fileName (p : String) : String :=
  String.mk ((splitSlash p.data).getLast (by
    intro h
    have := congrArg List.length h
    revert this
    cases p.data with
    | nil => simp [splitSlash]
    | cons c rest =>
      simp only [splitSlash]
      split
      · simp
      · split <;> simp))

/-- Observable events of one `Transaction::download` run, in order:
a chunk written to a destination file, a progress-sink invocation, and the
`eprintln!` report of a non-success HTTP status. -/
inductive Ev where
  | write (path : String) (chunk : List Nat)
  | sinkCall (p : Progress)
  | httpFail (url : String) (status : Nat)
  deriving DecidableEq, Repr

/-- The error channel of `Transaction::download` (`Box<dyn Error>` in the
source, tagged here by provenance): the missing-URL configuration error
(`format!("No URL found for provider ... for file ...")`), filesystem
errors propagated with `?`, transport/chunk errors, a progress-sink error,
and panics (`assert!` in `total_download_size`, `try_into().unwrap()`). -/
inductive DlErr where
  | noUrl (file provider : String)
  | ioErr (msg : String)
  | netErr (msg : String)
  | sinkErr (msg : String)
  | panics (msg : String)
  deriving DecidableEq, Repr

/-- Outcome of `http_client.get(url).send()` plus the status check: a
successful status with a stream of chunk results, a non-success status, or
a transport error from `send()` itself. -/
inductive HttpResult where
  | ok (chunks : List (Except String (List Nat)))
  | badStatus (status : Nat)
  | sendErr (msg : String)

/-- Abstract effect handlers for `Transaction::download`: directory
creation, file creation, chunk writes, the HTTP client, and the wall clock
(`elapsed fileIdx chunkIdx` is `start.elapsed()` in seconds when chunk
`chunkIdx` of pending file `fileIdx` has arrived). -/
structure DlEnv where
  mkdir : String → Except String Unit
  createFile : String → Except String Unit
  writeChunk : String → List Nat → Except String Unit
  fetch : String → HttpResult
  elapsed : Nat → Nat → ℚ

/-- The `while let Some(chunk) = stream.next()` loop of
`Transaction::download` (src/transaction.rs lines 316-355): write each
chunk, advance the per-file and batch counters, compute the saturating
remaining total, the instantaneous speed and the capped ETA, build the
`Progress` snapshot and invoke the sink, aborting on any error. -/
def runChunks (sink : Progress → Except String Unit) (env : DlEnv)
    (destPath fname : String) (fileIndex fileCount : Nat) (fileSize total : Int)
    (elapsedAt : Nat → ℚ) :
    List (Except String (List Nat)) → Nat → Nat → Nat → List Ev × Except DlErr Nat
  | [], _, _, totalDown => ([], Except.ok totalDown)
  | Except.error e :: _, _, _, _ => ([], Except.error (DlErr.netErr e))
  | Except.ok chunk :: rest, chunkIdx, downloaded, totalDown =>
    match env.writeChunk destPath chunk with
    | Except.error e => ([], Except.error (DlErr.ioErr e))
    | Except.ok _ =>
      let downloaded2 := downloaded + chunk.length
      let totalDown2 := totalDown + chunk.length
      let left := total.toNat - totalDown2
      let el := elapsedAt chunkIdx
      let speed : ℚ := (downloaded2 : ℚ) / el
      let eta : ℚ := if 0 < speed then min ((left : ℚ) / speed) 86400 else 0
      if fileSize < 0 then
        ([Ev.write destPath chunk], Except.error (DlErr.panics "file size cast"))
      else
        let p : Progress :=
          { current := downloaded2
            file_index := fileIndex
            total_files := fileCount
            speed := speed
            file_size := fileSize.toNat
            elapsed := el
            filename := fname
            total_size_downloaded := totalDown2
            total_amount_left := left
            expected_time_left := eta
            total_download_size := total }
        match sink p with
        | Except.error e =>
            ([Ev.write destPath chunk, Ev.sinkCall p], Except.error (DlErr.sinkErr e))
        | Except.ok _ =>
            let res := runChunks sink env destPath fname fileIndex fileCount fileSize total
              elapsedAt rest (chunkIdx + 1) downloaded2 totalDown2
            (Ev.write destPath chunk :: Ev.sinkCall p :: res.1, res.2)

/-- The per-pending-file body of the `for (idx, op)` loop of
`Transaction::download` (src/transaction.rs lines 289-355): create parent
directories, resolve the provider URL, issue the GET (a non-success status
is reported and the file skipped), create the destination file and stream
its chunks. On success the batch-cumulative byte counter is returned. -/
def processFile (sink : Progress → Except String Unit) (env : DlEnv)
    (provider base : String) (fileCount : Nat) (total : Int)
    (idx : Nat) (op : FileOperation) (totalDown : Nat) : List Ev × Except DlErr Nat :=
  let destPath := joinPath base op.patch_file.path
  let mk := match parentDir destPath with
            | some d => env.mkdir d
            | none => Except.ok ()
  match mk with
  | Except.error e => ([], Except.error (DlErr.ioErr e))
  | Except.ok _ =>
    match op.patch_file.get_url provider with
    | none => ([], Except.error (DlErr.noUrl op.patch_file.path provider))
    | some url =>
      match env.fetch url with
      | HttpResult.sendErr e => ([], Except.error (DlErr.netErr e))
      | HttpResult.badStatus st => ([Ev.httpFail url st], Except.ok totalDown)
      | HttpResult.ok chunks =>
        match env.createFile destPath with
        | Except.error e => ([], Except.error (DlErr.ioErr e))
        | Except.ok _ =>
          runChunks sink env destPath (fileName destPath) (idx + 1) fileCount
            op.patch_file.size total (env.elapsed idx) chunks 0 0 totalDown

/-- The `for (idx, op) in self.pending().iter().enumerate()` loop of
`Transaction::download`: process each pending file in order, threading the
batch-cumulative byte counter, concatenating the emitted events, and
stopping at the first propagated error. -/
def downloadLoop (sink : Progress → Except String Unit) (env : DlEnv)
    (provider base : String) (fileCount : Nat) (total : Int) :
    List (Nat × FileOperation) → Nat → List Ev × Except DlErr Unit
  | [], _ => ([], Except.ok ())
  | (idx, op) :: rest, totalDown =>
    let res := processFile sink env provider base fileCount total idx op totalDown
    match res.2 with
    | Except.error e => (res.1, Except.error e)
    | Except.ok totalDown2 =>
      let res2 := downloadLoop sink env provider base fileCount total rest totalDown2
      (res.1 ++ res2.1, res2.2)

/-- `Transaction::download` from src/transaction.rs (lines 278-358):
compute the asserted total download size, then run the pending operations
in order. Returns the ordered event trace and the overall result. -/
def Transaction.download (t : Transaction) (sink : Progress → Except String Unit)
    (env : DlEnv) (provider : String) : List Ev × Except DlErr Unit :=
  match t.total_download_size with
  | none => ([], Except.error (DlErr.panics "total download size negative"))
  | some total =>
      downloadLoop sink env provider t.base_path t.pending_count total t.pending.enum 0

/-- Every progress snapshot in the trace was accepted by the sink. -/
def AllOk (sink : Progress → Except String Unit) (tr : List Ev) : Prop :=
  ∀ p : Progress, Ev.sinkCall p ∈ tr → sink p = Except.ok ()

/-- The cooperative-cancellation property of a trace/result pair: at every
sink invocation recorded in the trace, either the sink accepted the
snapshot, or it returned an error, nothing at all follows that invocation
in the trace, and the overall result is exactly that sink error. -/
def SinkAborts {α : Type} (sink : Progress → Except String Unit)
    (tr : List Ev) (r : Except DlErr α) : Prop :=
  ∀ t1 (p : Progress) t2, tr = t1 ++ Ev.sinkCall p :: t2 →
    sink p = Except.ok () ∨
      (t2 = [] ∧ ∃ e, sink p = Except.error e ∧ r = Except.error (DlErr.sinkErr e))

/-- Concrete digest function for witnesses: no input hashes to "haa". -/
def md5W1 : List Nat → String := fun _ => "zz"

/-- Concrete descriptor for witnesses. -/
def fW1 : PatchFile :=
  { path := "p", hash := "haa", size := 3, custom := false, urls := [] }

/-- Concrete manifest for witnesses. -/
def mW1 : Manifest := { version := "1", uid := "u", files := [fW1] }

/-- Concrete filesystem for witnesses: empty. -/
def fsW1 : String → Option (List Nat) := fun _ => none

/-- The classification of `fW1` against the empty filesystem. -/
def opW1 : FileOperation := { patch_file := fW1, size := 0, status := Status.Missing }

/-- Concrete manifest with one 5-byte file, for the C2 witness. -/
def mW2 : Manifest :=
  { version := "1", uid := "u"
    files := [{ path := "a", hash := "h", size := 5, custom := false, urls := [] }] }

/-- Descriptor declaring size 0 for a file occupying 5 bytes locally. -/
def fNeg : PatchFile :=
  { path := "a", hash := "h", size := 0, custom := false, urls := [] }

/-- A transaction whose pending operation shrinks the file on disk:
the declared size 0 replaces 5 local bytes, so the disk-space change is
negative. -/
def tNeg : Transaction :=
  { operations := [{ patch_file := fNeg, size := 5, status := Status.Missing }]
    manifest_version := ""
    manifest_uid := ""
    base_path := "" }

/-- The per-chunk telemetry invariants of a `Progress` snapshot: speed is
the per-file byte count over the elapsed seconds, the ETA is the remaining
total over the speed capped at 86400 (0 if the speed is not positive), and
the remaining total is the saturating difference of the batch total and
the cumulative downloaded bytes. -/
def GoodProgress (p : Progress) : Prop :=
  p.speed = (p.current : ℚ) / p.elapsed
  ∧ p.expected_time_left
      = (if 0 < p.speed then min ((p.total_amount_left : ℚ) / p.speed) 86400 else 0)
  ∧ p.total_amount_left = p.total_download_size.toNat - p.total_size_downloaded

/-- Concrete descriptor with a single "none" provider URL. -/
def pfC3 : PatchFile :=
  { path := "a.bin", hash := "h", size := 2, custom := false, urls := [("none", "u")] }

/-- Concrete missing-file operation over `pfC3`. -/
def opC3 : FileOperation := { patch_file := pfC3, size := 0, status := Status.Missing }

/-- One-pending-file transaction over `opC3`. -/
def tC3 : Transaction :=
  { operations := [opC3], manifest_version := "1", manifest_uid := "u1", base_path := "b" }

/-- Effect handlers delivering two one-byte chunks, all filesystem
operations succeeding, elapsed time fixed at one second. -/
def envC3 : DlEnv :=
  { mkdir := fun _ => Except.ok ()
    createFile := fun _ => Except.ok ()
    writeChunk := fun _ _ => Except.ok ()
    fetch := fun _ => HttpResult.ok [Except.ok [7], Except.ok [8]]
    elapsed := fun _ _ => 1 }

/-- A sink that rejects every snapshot from two bytes onward. -/
def sinkC3 : Progress → Except String Unit :=
  fun p => if 2 ≤ p.current then Except.error "stop" else Except.ok ()

/-- The snapshot after the first chunk of the `tC3` run. -/
def p1C3 : Progress := ⟨1, 1, 1, 1, 2, 1, "a.bin", 1, 1, 1, 2⟩

/-- The snapshot after the second chunk of the `tC3` run. -/
def p2C3 : Progress := ⟨2, 1, 1, 2, 2, 1, "a.bin", 2, 0, 0, 2⟩

/-- Descriptor with an empty provider-URL map. -/
def pf1C4 : PatchFile :=
  { path := "f1.bin", hash := "h1", size := 1, custom := false, urls := [] }

/-- Descriptor with a "none" fallback URL. -/
def pf2C4 : PatchFile :=
  { path := "f2.bin", hash := "h2", size := 1, custom := false, urls := [("none", "u2")] }

def op1C4 : FileOperation := { patch_file := pf1C4, size := 0, status := Status.Missing }

def op2C4 : FileOperation := { patch_file := pf2C4, size := 0, status := Status.Missing }

/-- Two-pending-file batch whose first file has no URL at all. -/
def tC4 : Transaction :=
  { operations := [op1C4, op2C4], manifest_version := "1", manifest_uid := "u",
    base_path := "b" }

/-- Effect handlers where every fetch succeeds with one one-byte chunk. -/
def envC4 : DlEnv :=
  { mkdir := fun _ => Except.ok ()
    createFile := fun _ => Except.ok ()
    writeChunk := fun _ _ => Except.ok ()
    fetch := fun _ => HttpResult.ok [Except.ok [5]]
    elapsed := fun _ _ => 1 }

/-- A sink that accepts every snapshot. -/
def sinkOk : Progress → Except String Unit := fun _ => Except.ok ()

/-- Effect handlers where every fetch returns HTTP status 404. -/
def envC5 : DlEnv :=
  { mkdir := fun _ => Except.ok ()
    createFile := fun _ => Except.ok ()
    writeChunk := fun _ _ => Except.ok ()
    fetch := fun _ => HttpResult.badStatus 404
    elapsed := fun _ _ => 1 }

/-- Rust `f64` division as performed unguarded at src/transaction.rs line
327 (`downloaded as f64 / start.elapsed().as_secs_f64()`), keeping only
whether the result is a finite number: `some` of the exact quotient when
the divisor is nonzero, `none` when the divisor is zero — the `f64` result
is then `inf` (or `NaN` for `0.0 / 0.0`), in particular never the finite
value 0. -/
def f64div (a b : ℚ) : Option ℚ := if b = 0 then none else some (a / b)

/-- Effect handlers delivering one one-byte chunk with the wall clock
reporting zero elapsed seconds. -/
def envZ6 : DlEnv :=
  { mkdir := fun _ => Except.ok ()
    createFile := fun _ => Except.ok ()
    writeChunk := fun _ _ => Except.ok ()
    fetch := fun _ => HttpResult.ok [Except.ok [7]]
    elapsed := fun _ _ => 0 }

/-- The snapshot after the single chunk of the `tC3`-under-`envZ6` run:
one byte downloaded at elapsed 0. -/
def pZ6 : Progress := ⟨1, 1, 1, 0, 2, 0, "a.bin", 1, 1, 0, 2⟩

/- ------------------------------------------------------------------ -/
/- Helper lemmas                                                      -/
/- ------------------------------------------------------------------ -/

theorem filterMapSumEq (l : List FileOperation) (f : FileOperation → Int) :
    ((l.filter (fun x => x.status != Status.Present)).map f).sum
      = (l.map (fun op => if op.status = Status.Present then 0 else f op)).sum := by
  induction l with
  | nil => rfl
  | cons a l ih =>
    by_cases h : a.status = Status.Present
    · simp [List.filter_cons, h, ih]
    · simp [List.filter_cons, h, ih]

theorem repChar_length (n : Nat) (c : Char) : (repChar n c).length = n :=
  List.length_replicate n c

theorem process_patch_mem (md5_hex : List Nat → String) (m : Manifest)
    (bp : String) (fs : String → Option (List Nat)) :
    ∀ op ∈ FileOperation.process md5_hex m bp fs, op.patch_file ∈ m.files := by
  intro op hop
  simp only [FileOperation.process, List.mem_map] at hop
  obtain ⟨file, hf, rfl⟩ := hop
  cases hfs : fs (joinPath bp file.path) <;> simp [hfs, hf]

/- ------------------------------------------------------------------ -/
/- Claims                                                             -/
/- ------------------------------------------------------------------ -/

/-- C1: reconciliation classifies each descriptor so that the status is
`Present` iff the digest of the local bytes equals the expected hash,
`Missing` (with local size 0) iff no file exists at the base path joined
with the descriptor's path, and `OutOfDate` otherwise, with the local size
equal to the byte length of the existing file. -/
theorem process_classification (md5_hex : List Nat → String) (m : Manifest)
    (bp : String) (fs : String → Option (List Nat)) (i : Nat)
    (file : PatchFile) (op : FileOperation)
    (hfile : m.files[i]? = some file)
    (hop : (FileOperation.process md5_hex m bp fs)[i]? = some op) :
    (op.status = Status.Present ↔
        ∃ b, fs (joinPath bp file.path) = some b ∧ md5_hex b = file.hash)
    ∧ (op.status = Status.Missing ↔ fs (joinPath bp file.path) = none)
    ∧ (op.status = Status.OutOfDate ↔
        ∃ b, fs (joinPath bp file.path) = some b ∧ md5_hex b ≠ file.hash)
    ∧ (op.status = Status.Missing → op.size = 0)
    ∧ (∀ b, fs (joinPath bp file.path) = some b → op.size = (b.length : Int)) := by
  rw [FileOperation.process, List.getElem?_map, hfile, Option.map_some'] at hop
  injection hop with hop
  subst hop
  cases hfs : fs (joinPath bp file.path) with
  | none => simp [hfs]
  | some b =>
    by_cases hh : md5_hex b = file.hash
    · simp [hfs, hh]
    · simp [hfs, hh]

/-- Witness for C1 at a concrete manifest, base path and filesystem. -/
theorem process_classification_witness :
    (opW1.status = Status.Present ↔
        ∃ b, fsW1 (joinPath "b" fW1.path) = some b ∧ md5W1 b = fW1.hash)
    ∧ (opW1.status = Status.Missing ↔ fsW1 (joinPath "b" fW1.path) = none)
    ∧ (opW1.status = Status.OutOfDate ↔
        ∃ b, fsW1 (joinPath "b" fW1.path) = some b ∧ md5W1 b ≠ fW1.hash)
    ∧ (opW1.status = Status.Missing → opW1.size = 0)
    ∧ (∀ b, fsW1 (joinPath "b" fW1.path) = some b → opW1.size = (b.length : Int)) :=
  process_classification md5W1 mW1 "b" fsW1 0 fW1 opW1 rfl rfl

/-- C2: for a transaction built from a manifest in which every declared
size is non-negative, `total_download_size` equals the exact sum of
expected sizes over non-`Present` operations, that value is non-negative,
and the internal `assert!` never fires (the `none` branch of the model is
unreachable). -/
theorem total_download_size_sound (md5_hex : List Nat → String) (m : Manifest)
    (bp : String) (fs : String → Option (List Nat))
    (h : ∀ f ∈ m.files, 0 ≤ f.size) :
    ∃ s : Int,
      (Transaction.new md5_hex m bp fs).total_download_size = some s
      ∧ s = ((Transaction.new md5_hex m bp fs).operations.map
              (fun op => if op.status = Status.Present then 0 else op.patch_file.size)).sum
      ∧ 0 ≤ s := by
  have hnn : 0 ≤ (((Transaction.new md5_hex m bp fs).operations.filter
      (fun x => x.status != Status.Present)).map (fun x => x.patch_file.size)).sum := by
    apply List.sum_nonneg
    intro x hx
    simp only [List.mem_map] at hx
    obtain ⟨op, hop, rfl⟩ := hx
    have hmem : op ∈ (Transaction.new md5_hex m bp fs).operations :=
      List.mem_of_mem_filter hop
    exact h _ (process_patch_mem md5_hex m bp fs op hmem)
  refine ⟨_, ?_, ?_, hnn⟩
  · rw [Transaction.total_download_size]
    simp only [hnn, if_pos]
  · rw [filterMapSumEq]

/-- Witness for C2 at a concrete manifest with a non-negative size. -/
theorem total_download_size_sound_witness :
    ∃ s : Int,
      (Transaction.new md5W1 mW2 "b" fsW1).total_download_size = some s
      ∧ s = ((Transaction.new md5W1 mW2 "b" fsW1).operations.map
              (fun op => if op.status = Status.Present then 0 else op.patch_file.size)).sum
      ∧ 0 ≤ s :=
  total_download_size_sound md5W1 mW2 "b" fsW1 (by decide)

/-- C7: `disk_space_change` equals the exact integer sum of
`expectedSize − localSize` over non-`Present` operations, and the sum can
be negative (it is neither clamped nor asserted non-negative). -/
theorem disk_space_change_spec :
    (∀ t : Transaction,
        t.disk_space_change = (t.operations.map
          (fun op => if op.status = Status.Present then 0
                     else op.patch_file.size - op.size)).sum)
    ∧ (∃ t : Transaction, t.disk_space_change < 0) := by
  constructor
  · intro t
    rw [Transaction.disk_space_change, filterMapSumEq]
  · exact ⟨tNeg, by decide⟩

/-- C10: with `current ≤ total` and `0 < total`, the progress bar's
filled-cell count equals `⌊20·current/total⌋`, it never exceeds the bar
width 20 (so the empty-cell count `20 − filled` cannot underflow), and the
rendered bar has exactly 20 cells (22 characters with the brackets);
without the precondition the filled count can exceed 20, which in the
source would make the `usize` subtraction underflow. -/
theorem progress_bar_correct (current total : Nat)
    (h1 : current ≤ total) (h2 : 0 < total) :
    barFilled current total = 20 * current / total
    ∧ barFilled current total ≤ 20
    ∧ (create_progress_bar current total).length = 22
    ∧ ∃ c t : Nat, 0 < t ∧ 20 < barFilled c t := by
  have key : barFilled current total = current * 20 / total := by
    rw [barFilled, div_mul_eq_mul_div]
    rw [show ((current : ℚ)) * 20 = ((current * 20 : ℕ) : ℚ) by push_cast; ring]
    rw [Rat.floor_natCast_div_natCast, ← Int.natCast_div]
    exact Int.toNat_natCast _
  have hle : barFilled current total ≤ 20 := by
    rw [key]
    calc current * 20 / total ≤ total * 20 / total :=
          Nat.div_le_div_right (Nat.mul_le_mul_right 20 h1)
      _ = 20 := Nat.mul_div_cancel_left 20 h2
  have hex : ∃ c t : Nat, 0 < t ∧ 20 < barFilled c t := by
    refine ⟨2, 1, Nat.one_pos, ?_⟩
    have h40 : ⌊(2 : ℚ) / 1 * 20⌋ = 40 := by norm_num
    have : barFilled 2 1 = 40 := by
      rw [barFilled]
      norm_num [h40]
      decide
    omega
  refine ⟨by rw [key, Nat.mul_comm], hle, ?_, hex⟩
  rw [create_progress_bar]
  rw [String.length_append, String.length_append, String.length_append]
  rw [repChar_length, repChar_length]
  have hb1 : ("[" : String).length = 1 := rfl
  have hb2 : ("]" : String).length = 1 := rfl
  omega

theorem qfloor_div_3600 (s : ℚ) (hs : 0 ≤ s) :
    ⌊s / 3600⌋ = ((⌊s⌋₊ / 3600 : ℕ) : ℤ) := by
  have h0 : 0 ≤ s / 3600 := by positivity
  rw [← Int.natCast_floor_eq_floor h0, Nat.floor_div_ofNat]

theorem qfloor_div_60 (s : ℚ) (hs : 0 ≤ s) :
    ⌊s / 60⌋ = ((⌊s⌋₊ / 60 : ℕ) : ℤ) := by
  have h0 : 0 ≤ s / 60 := by positivity
  rw [← Int.natCast_floor_eq_floor h0, Nat.floor_div_ofNat]

theorem floor_cond_3600 (s : ℚ) : 0 < ⌊s / 3600⌋ ↔ (3600 : ℚ) ≤ s := by
  rw [Int.lt_iff_add_one_le, zero_add, Int.le_floor]
  push_cast
  rw [one_le_div (by norm_num : (0:ℚ) < 3600)]

theorem floor_cond_60 (s : ℚ) : 0 < ⌊s / 60⌋ ↔ (60 : ℚ) ≤ s := by
  rw [Int.lt_iff_add_one_le, zero_add, Int.le_floor]
  push_cast
  rw [one_le_div (by norm_num : (0:ℚ) < 60)]

theorem floor_fmod_60 (s : ℚ) (hs : 0 ≤ s) :
    ⌊fmod s 60⌋ = (⌊s⌋₊ : ℤ) - 60 * ((⌊s⌋₊ / 60 : ℕ) : ℤ) := by
  have h0 : 0 ≤ s / 60 := by positivity
  rw [fmod, qtrunc, if_pos h0, qfloor_div_60 s hs]
  have hc : (60 : ℚ) * (((⌊s⌋₊ / 60 : ℕ) : ℤ) : ℚ)
      = (((60 * (⌊s⌋₊ / 60 : ℕ) : ℤ)) : ℚ) := by push_cast; ring
  rw [hc, Int.floor_sub_int, ← Int.natCast_floor_eq_floor hs]

theorem floor_fmod_3600_div_60 (s : ℚ) (hs : 0 ≤ s) :
    ⌊fmod s 3600 / 60⌋ = ((⌊s⌋₊ / 60 : ℕ) : ℤ) - 60 * ((⌊s⌋₊ / 3600 : ℕ) : ℤ) := by
  have h0 : 0 ≤ s / 3600 := by positivity
  rw [fmod, qtrunc, if_pos h0, qfloor_div_3600 s hs]
  have hc : (s - 3600 * (((⌊s⌋₊ / 3600 : ℕ) : ℤ) : ℚ)) / 60
      = s / 60 - (((60 * (⌊s⌋₊ / 3600 : ℕ) : ℤ)) : ℚ) := by push_cast; ring
  rw [hc, Int.floor_sub_int, qfloor_div_60 s hs]

theorem eta_eq_humanizeSpec (s : ℚ) : eta_to_human_readable s = humanizeSpec s := by
  rw [eta_to_human_readable, humanizeSpec]
  by_cases hg : s ≤ 0 ∨ 86400 < s
  · rw [if_pos hg, if_pos hg]
  · rw [if_neg hg, if_neg hg]
    push_neg at hg
    obtain ⟨hpos, hle⟩ := hg
    have hs : 0 ≤ s := le_of_lt hpos
    by_cases hh : (3600 : ℚ) ≤ s
    · rw [if_pos ((floor_cond_3600 s).mpr hh), if_pos hh]
      have e1 : (⌊s / 3600⌋).toNat = ⌊s⌋₊ / 3600 := by
        rw [qfloor_div_3600 s hs]; omega
      have e2 : (⌊fmod s 3600 / 60⌋).toNat = ⌊s⌋₊ % 3600 / 60 := by
        rw [floor_fmod_3600_div_60 s hs]; omega
      have e3 : (⌊fmod s 60⌋).toNat = ⌊s⌋₊ % 60 := by
        rw [floor_fmod_60 s hs]; omega
      rw [e1, e2, e3]
    · rw [if_neg (fun hc => hh ((floor_cond_3600 s).mp hc)), if_neg hh]
      have hq0 : ⌊s / 3600⌋ = 0 := by
        rw [qfloor_div_3600 s hs]
        have : ⌊s⌋₊ < 3600 := by
          rw [Nat.floor_lt hs]
          exact lt_of_not_le hh
        omega
      have hfm : fmod s 3600 = s := by
        rw [fmod, qtrunc, if_pos (by positivity : 0 ≤ s / 3600), hq0]
        push_cast
        ring
      by_cases hm : (60 : ℚ) ≤ s
      · rw [hfm, if_pos ((floor_cond_60 s).mpr hm), if_pos hm]
        have e1 : (⌊s / 60⌋).toNat = ⌊s⌋₊ / 60 := by
          rw [qfloor_div_60 s hs]; omega
        have e3 : (⌊fmod s 60⌋).toNat = ⌊s⌋₊ % 60 := by
          rw [floor_fmod_60 s hs]; omega
        rw [e1, e3]
      · rw [hfm, if_neg (fun hc => hm ((floor_cond_60 s).mp hc)), if_neg hm]
        have hlt : ⌊s⌋₊ < 60 := by
          rw [Nat.floor_lt hs]
          exact lt_of_not_le hm
        have e3 : (⌊fmod s 60⌋).toNat = ⌊s⌋₊ := by
          rw [floor_fmod_60 s hs]; omega
        rw [e3]

/-- C8: the duration formatter returns `"--"` exactly outside `(0, 86400]`
and otherwise formats as `HhMMmSSs` when at least one hour, `MmSSs` when at
least one minute, `Ss` below one minute, zero-padding minutes and seconds
whenever a larger unit is present (captured by the spec-shaped
`humanizeSpec`), with the five example values of the spec. -/
theorem eta_to_human_readable_spec :
    (∀ s : ℚ, eta_to_human_readable s = humanizeSpec s)
    ∧ eta_to_human_readable 0 = "--"
    ∧ eta_to_human_readable 30 = "30s"
    ∧ eta_to_human_readable 61 = "1m01s"
    ∧ eta_to_human_readable 3661 = "1h01m01s"
    ∧ eta_to_human_readable 90000 = "--" := by
  refine ⟨eta_eq_humanizeSpec, ?_, ?_, ?_, ?_, ?_⟩
  · rw [eta_to_human_readable]; norm_num
  · rw [eta_eq_humanizeSpec, humanizeSpec]; norm_num; decide
  · rw [eta_eq_humanizeSpec, humanizeSpec]; norm_num; decide
  · rw [eta_eq_humanizeSpec, humanizeSpec]; norm_num; decide
  · rw [eta_to_human_readable]; norm_num

/-- Witness for C10 at `current = 1`, `total = 3`. -/
theorem progress_bar_correct_witness :
    barFilled 1 3 = 20 * 1 / 3
    ∧ barFilled 1 3 ≤ 20
    ∧ (create_progress_bar 1 3).length = 22
    ∧ ∃ c t : Nat, 0 < t ∧ 20 < barFilled c t :=
  progress_bar_correct 1 3 (by decide) (by decide)


theorem bne_MissPres : (Status.Missing != Status.Present) = true := rfl

theorem joinPath_c3 : joinPath "b" "a.bin" = "b/a.bin" := rfl

theorem parentDir_c3 : parentDir "b/a.bin" = some "b" := rfl

theorem fileName_c3 : fileName "b/a.bin" = "a.bin" := rfl

theorem joinPath_f1 : joinPath "b" "f1.bin" = "b/f1.bin" := rfl

theorem parentDir_f1 : parentDir "b/f1.bin" = some "b" := rfl

theorem joinPath_f2 : joinPath "b" "f2.bin" = "b/f2.bin" := rfl

theorem parentDir_f2 : parentDir "b/f2.bin" = some "b" := rfl

theorem min1_86400 : min (1:ℚ) 86400 = 1 := by
  rw [min_eq_left]
  norm_num

theorem min0_86400 : min (0:ℚ) 86400 = 0 := by
  rw [min_eq_left]
  norm_num

theorem sinkAborts_nil {α : Type} (sink : Progress → Except String Unit)
    (r : Except DlErr α) : SinkAborts sink [] r := by
  intro t1 p t2 h
  cases t1 <;> simp at h

theorem sinkAborts_cons_write {α : Type} (sink : Progress → Except String Unit)
    (d : String) (c : List Nat) (tr : List Ev) (r : Except DlErr α)
    (h : SinkAborts sink tr r) : SinkAborts sink (Ev.write d c :: tr) r := by
  intro t1 p t2 hd
  cases t1 with
  | nil => simp at hd
  | cons a t1 =>
    simp only [List.cons_append, List.cons.injEq] at hd
    exact h t1 p t2 hd.2

theorem sinkAborts_cons_httpFail {α : Type} (sink : Progress → Except String Unit)
    (u : String) (st : Nat) (tr : List Ev) (r : Except DlErr α)
    (h : SinkAborts sink tr r) : SinkAborts sink (Ev.httpFail u st :: tr) r := by
  intro t1 p t2 hd
  cases t1 with
  | nil => simp at hd
  | cons a t1 =>
    simp only [List.cons_append, List.cons.injEq] at hd
    exact h t1 p t2 hd.2

theorem sinkAborts_cons_ok {α : Type} (sink : Progress → Except String Unit)
    (q : Progress) (tr : List Ev) (r : Except DlErr α)
    (hok : sink q = Except.ok ())
    (h : SinkAborts sink tr r) : SinkAborts sink (Ev.sinkCall q :: tr) r := by
  intro t1 p t2 hd
  cases t1 with
  | nil =>
    simp only [List.nil_append, List.cons.injEq] at hd
    obtain ⟨h1, _⟩ := hd
    injection h1 with h1
    subst h1
    exact Or.inl hok
  | cons a t1 =>
    simp only [List.cons_append, List.cons.injEq] at hd
    exact h t1 p t2 hd.2

theorem sinkAborts_single_err {α : Type} (sink : Progress → Except String Unit)
    (q : Progress) (e : String) (he : sink q = Except.error e) :
    SinkAborts sink [Ev.sinkCall q] (Except.error (DlErr.sinkErr e) : Except DlErr α) := by
  intro t1 p t2 hd
  cases t1 with
  | nil =>
    simp only [List.nil_append, List.cons.injEq] at hd
    obtain ⟨h1, h2⟩ := hd
    injection h1 with h1
    subst h1
    exact Or.inr ⟨h2.symm, e, he, rfl⟩
  | cons a t1 =>
    simp only [List.cons_append, List.cons.injEq] at hd
    obtain ⟨_, h2⟩ := hd
    cases t1 <;> simp at h2

theorem sinkAborts_append {α : Type} (sink : Progress → Except String Unit)
    (evs evs2 : List Ev) (r : Except DlErr α)
    (hall : AllOk sink evs) (h2 : SinkAborts sink evs2 r) :
    SinkAborts sink (evs ++ evs2) r := by
  induction evs with
  | nil => simpa using h2
  | cons a evs ih =>
    have hall2 : AllOk sink evs := fun p hp => hall p (List.mem_cons_of_mem _ hp)
    have ihh := ih hall2
    intro t1 p t2 hd
    cases t1 with
    | nil =>
      simp only [List.nil_append] at hd
      rw [List.cons_append] at hd
      simp only [List.cons.injEq] at hd
      obtain ⟨ha, _⟩ := hd
      subst ha
      exact Or.inl (hall p (List.mem_cons_self _ _))
    | cons b t1 =>
      rw [List.cons_append] at hd
      simp only [List.cons_append, List.cons.injEq] at hd
      exact ihh t1 p t2 hd.2

theorem sinkAborts_error_cast {α β : Type} (sink : Progress → Except String Unit)
    (tr : List Ev) (err : DlErr)
    (h : SinkAborts sink tr (Except.error err : Except DlErr α)) :
    SinkAborts sink tr (Except.error err : Except DlErr β) := by
  intro t1 p t2 hd
  rcases h t1 p t2 hd with hok | ⟨ht2, e, he, hr⟩
  · exact Or.inl hok
  · injection hr with hr
    exact Or.inr ⟨ht2, e, he, by rw [hr]⟩

theorem runChunks_sinkAborts (sink : Progress → Except String Unit) (env : DlEnv)
    (destPath fname : String) (fileIndex fileCount : Nat) (fileSize total : Int)
    (elapsedAt : Nat → ℚ) :
    ∀ (chunks : List (Except String (List Nat))) (chunkIdx downloaded totalDown : Nat),
      SinkAborts sink
        (runChunks sink env destPath fname fileIndex fileCount fileSize total elapsedAt
          chunks chunkIdx downloaded totalDown).1
        (runChunks sink env destPath fname fileIndex fileCount fileSize total elapsedAt
          chunks chunkIdx downloaded totalDown).2 := by
  intro chunks
  induction chunks with
  | nil =>
    intro chunkIdx downloaded totalDown
    simp only [runChunks]
    exact sinkAborts_nil sink _
  | cons c rest ih =>
    intro chunkIdx downloaded totalDown
    cases c with
    | error e =>
      simp only [runChunks]
      exact sinkAborts_nil sink _
    | ok chunk =>
      cases hwc : env.writeChunk destPath chunk with
      | error e =>
        simp only [runChunks, hwc]
        exact sinkAborts_nil sink _
      | ok u =>
        simp only [runChunks, hwc]
        by_cases hfs : fileSize < 0
        · simp only [if_pos hfs]
          exact sinkAborts_cons_write sink _ _ _ _ (sinkAborts_nil sink _)
        · simp only [if_neg hfs]
          split
          · next e hsp =>
            exact sinkAborts_cons_write sink _ _ _ _ (sinkAborts_single_err sink _ e hsp)
          · next v hsp =>
            cases v
            exact sinkAborts_cons_write sink _ _ _ _
              (sinkAborts_cons_ok sink _ _ _ hsp
                (ih (chunkIdx + 1) (downloaded + chunk.length) (totalDown + chunk.length)))

theorem allOk_nil (sink : Progress → Except String Unit) : AllOk sink [] := by
  intro p hp
  simp at hp

theorem allOk_cons_write (sink : Progress → Except String Unit) (d : String)
    (c : List Nat) (tr : List Ev) (h : AllOk sink tr) :
    AllOk sink (Ev.write d c :: tr) := by
  intro p hp
  rcases List.mem_cons.mp hp with h1 | h1
  · simp at h1
  · exact h p h1

theorem allOk_cons_httpFail (sink : Progress → Except String Unit) (u : String)
    (st : Nat) (tr : List Ev) (h : AllOk sink tr) :
    AllOk sink (Ev.httpFail u st :: tr) := by
  intro p hp
  rcases List.mem_cons.mp hp with h1 | h1
  · simp at h1
  · exact h p h1

theorem allOk_cons_ok (sink : Progress → Except String Unit) (q : Progress)
    (tr : List Ev) (hok : sink q = Except.ok ()) (h : AllOk sink tr) :
    AllOk sink (Ev.sinkCall q :: tr) := by
  intro p hp
  rcases List.mem_cons.mp hp with h1 | h1
  · injection h1 with h1
    subst h1
    exact hok
  · exact h p h1

theorem runChunks_err_or_allOk (sink : Progress → Except String Unit) (env : DlEnv)
    (destPath fname : String) (fileIndex fileCount : Nat) (fileSize total : Int)
    (elapsedAt : Nat → ℚ) :
    ∀ (chunks : List (Except String (List Nat))) (chunkIdx downloaded totalDown : Nat),
      (∃ e, (runChunks sink env destPath fname fileIndex fileCount fileSize total elapsedAt
          chunks chunkIdx downloaded totalDown).2 = Except.error e)
      ∨ AllOk sink (runChunks sink env destPath fname fileIndex fileCount fileSize total
          elapsedAt chunks chunkIdx downloaded totalDown).1 := by
  intro chunks
  induction chunks with
  | nil =>
    intro chunkIdx downloaded totalDown
    simp only [runChunks]
    exact Or.inr (allOk_nil sink)
  | cons c rest ih =>
    intro chunkIdx downloaded totalDown
    cases c with
    | error e =>
      simp only [runChunks]
      exact Or.inl ⟨_, rfl⟩
    | ok chunk =>
      cases hwc : env.writeChunk destPath chunk with
      | error e =>
        simp only [runChunks, hwc]
        exact Or.inl ⟨_, rfl⟩
      | ok u =>
        simp only [runChunks, hwc]
        by_cases hfs : fileSize < 0
        · simp only [if_pos hfs]
          exact Or.inl ⟨_, rfl⟩
        · simp only [if_neg hfs]
          split
          · next e hsp => exact Or.inl ⟨_, rfl⟩
          · next v hsp =>
            cases v
            rcases ih (chunkIdx + 1) (downloaded + chunk.length) (totalDown + chunk.length) with
              ⟨e, he⟩ | hall
            · exact Or.inl ⟨e, he⟩
            · exact Or.inr (allOk_cons_write sink _ _ _ (allOk_cons_ok sink _ _ hsp hall))

theorem processFile_sinkAborts (sink : Progress → Except String Unit) (env : DlEnv)
    (provider base : String) (fileCount : Nat) (total : Int)
    (idx : Nat) (op : FileOperation) (totalDown : Nat) :
    SinkAborts sink (processFile sink env provider base fileCount total idx op totalDown).1
      (processFile sink env provider base fileCount total idx op totalDown).2 := by
  simp only [processFile]
  split
  · exact sinkAborts_nil sink _
  · split
    · exact sinkAborts_nil sink _
    · split
      · exact sinkAborts_nil sink _
      · exact sinkAborts_cons_httpFail sink _ _ _ _ (sinkAborts_nil sink _)
      · split
        · exact sinkAborts_nil sink _
        · exact runChunks_sinkAborts sink env _ _ _ _ _ _ _ _ _ _ _

theorem processFile_err_or_allOk (sink : Progress → Except String Unit) (env : DlEnv)
    (provider base : String) (fileCount : Nat) (total : Int)
    (idx : Nat) (op : FileOperation) (totalDown : Nat) :
    (∃ e, (processFile sink env provider base fileCount total idx op totalDown).2
        = Except.error e)
    ∨ AllOk sink (processFile sink env provider base fileCount total idx op totalDown).1 := by
  simp only [processFile]
  split
  · exact Or.inl ⟨_, rfl⟩
  · split
    · exact Or.inl ⟨_, rfl⟩
    · split
      · exact Or.inl ⟨_, rfl⟩
      · exact Or.inr (allOk_cons_httpFail sink _ _ _ (allOk_nil sink))
      · split
        · exact Or.inl ⟨_, rfl⟩
        · exact runChunks_err_or_allOk sink env _ _ _ _ _ _ _ _ _ _ _

theorem downloadLoop_sinkAborts (sink : Progress → Except String Unit) (env : DlEnv)
    (provider base : String) (fileCount : Nat) (total : Int) :
    ∀ (items : List (Nat × FileOperation)) (totalDown : Nat),
      SinkAborts sink
        (downloadLoop sink env provider base fileCount total items totalDown).1
        (downloadLoop sink env provider base fileCount total items totalDown).2 := by
  intro items
  induction items with
  | nil =>
    intro totalDown
    simp only [downloadLoop]
    exact sinkAborts_nil sink _
  | cons it rest ih =>
    intro totalDown
    obtain ⟨idx, op⟩ := it
    simp only [downloadLoop]
    split
    · next e hres =>
      have h := processFile_sinkAborts sink env provider base fileCount total idx op totalDown
      rw [hres] at h
      exact sinkAborts_error_cast sink _ _ h
    · next td2 hres =>
      have hall : AllOk sink
          (processFile sink env provider base fileCount total idx op totalDown).1 := by
        rcases processFile_err_or_allOk sink env provider base fileCount total idx op totalDown
          with ⟨e, he⟩ | hall
        · rw [hres] at he
          exact absurd he (by simp)
        · exact hall
      exact sinkAborts_append sink _ _ _ hall (ih td2)

theorem download_sinkAborts_aux (t : Transaction) (sink : Progress → Except String Unit)
    (env : DlEnv) (provider : String) :
    SinkAborts sink (t.download sink env provider).1 (t.download sink env provider).2 := by
  rw [Transaction.download]
  split
  · exact sinkAborts_nil sink _
  · exact downloadLoop_sinkAborts sink env provider t.base_path t.pending_count _
      t.pending.enum 0

/-- C3: if the progress sink returns an error at some recorded invocation,
that invocation is the last event of the run (no later chunk write, sink
call or HTTP report of any file follows it) and `download` propagates
exactly that sink error as its result. -/
theorem download_sink_abort (t : Transaction) (sink : Progress → Except String Unit)
    (env : DlEnv) (provider : String) (t1 : List Ev) (p : Progress) (t2 : List Ev) (e : String)
    (hdec : (t.download sink env provider).1 = t1 ++ Ev.sinkCall p :: t2)
    (he : sink p = Except.error e) :
    t2 = [] ∧ (t.download sink env provider).2 = Except.error (DlErr.sinkErr e) := by
  rcases download_sinkAborts_aux t sink env provider t1 p t2 hdec with hok | ⟨ht2, e2, he2, hr⟩
  · rw [he] at hok
    exact absurd hok (by simp)
  · rw [he] at he2
    injection he2 with he2
    subst he2
    exact ⟨ht2, hr⟩

theorem tC3_run : tC3.download sinkC3 envC3 "none"
    = ([Ev.write "b/a.bin" [7], Ev.sinkCall p1C3, Ev.write "b/a.bin" [8], Ev.sinkCall p2C3],
       Except.error (DlErr.sinkErr "stop")) := by
  norm_num [Transaction.download, tC3, sinkC3, envC3, opC3, pfC3,
    Transaction.total_download_size, Transaction.pending, Transaction.pending_count,
    downloadLoop, processFile, runChunks, joinPath_c3, parentDir_c3, fileName_c3,
    PatchFile.get_url, p1C3, p2C3, List.filter, List.enum, List.enumFrom,
    bne_MissPres, min1_86400, min0_86400, Progress.mk.injEq]
  have h2 : Int.toNat 2 = 2 := rfl
  rw [h2]
  norm_num

/-- Witness for C3: on the concrete two-chunk run whose sink rejects the
second snapshot, the decomposition hypothesis and the sink error hold, and
the theorem yields the empty tail and the propagated sink error. -/
theorem download_sink_abort_witness :
    ([] : List Ev) = []
    ∧ (tC3.download sinkC3 envC3 "none").2 = Except.error (DlErr.sinkErr "stop") :=
  download_sink_abort tC3 sinkC3 envC3 "none"
    [Ev.write "b/a.bin" [7], Ev.sinkCall p1C3, Ev.write "b/a.bin" [8]] p2C3 [] "stop"
    (by simp [tC3_run]) (by simp [sinkC3, p2C3])

/-- C4 counterexample: in the concrete batch `tC4` the first pending file
has neither the requested "cloudflare" key nor the "none" fallback, and
`download` stops with the configuration error after emitting no event at
all, even though the second pending file has a working URL (its fetch
would succeed with one chunk under `envC4`); the claim that the other
pending files of the batch are still processed is therefore false. -/
theorem missing_url_counterexample :
    tC4.download sinkOk envC4 "cloudflare"
      = ([], Except.error (DlErr.noUrl "f1.bin" "cloudflare")) := by
  norm_num [Transaction.download, tC4, op1C4, op2C4, pf1C4, pf2C4, envC4, sinkOk,
    Transaction.total_download_size, Transaction.pending, Transaction.pending_count,
    downloadLoop, processFile, PatchFile.get_url, List.filter, List.enum, List.enumFrom,
    bne_MissPres, joinPath_f1, parentDir_f1, joinPath_f2, parentDir_f2]

/-- C4 (amended): when a pending file's provider URL map has neither the
requested provider key nor the "none" fallback, the download loop fails
with a configuration error naming the file and the requested provider and
aborts the whole batch at that file: no event is emitted and no later
pending file is processed. -/
theorem missing_url_aborts_batch (sink : Progress → Except String Unit) (env : DlEnv)
    (provider base : String) (fileCount : Nat) (total : Int) (idx : Nat)
    (op : FileOperation) (rest : List (Nat × FileOperation)) (totalDown : Nat)
    (hmk : ∀ d, env.mkdir d = Except.ok ())
    (hurl : op.patch_file.get_url provider = none) :
    downloadLoop sink env provider base fileCount total ((idx, op) :: rest) totalDown
      = ([], Except.error (DlErr.noUrl op.patch_file.path provider)) := by
  have hpf : processFile sink env provider base fileCount total idx op totalDown
      = ([], Except.error (DlErr.noUrl op.patch_file.path provider)) := by
    cases hpd : parentDir (joinPath base op.patch_file.path) <;>
      simp only [processFile, hpd, hmk, hurl]
  simp only [downloadLoop, hpf]

/-- Witness for the amended C4 on the concrete batch `tC4`. -/
theorem missing_url_aborts_batch_witness :
    downloadLoop sinkOk envC4 "cloudflare" "b" 2 2 [(0, op1C4), (1, op2C4)] 0
      = ([], Except.error (DlErr.noUrl op1C4.patch_file.path "cloudflare")) :=
  missing_url_aborts_batch sinkOk envC4 "cloudflare" "b" 2 2 0 op1C4 [(1, op2C4)] 0
    (fun _ => rfl) rfl

/-- C5: a pending operation whose HTTP GET returns a non-success status
contributes exactly the failure report to the trace — nothing is written
to its destination file — and the loop continues with the remaining
pending operations, whose events and result are unchanged. -/
theorem http_fail_skips_file (sink : Progress → Except String Unit) (env : DlEnv)
    (provider base : String) (fileCount : Nat) (total : Int) (idx : Nat)
    (op : FileOperation) (rest : List (Nat × FileOperation)) (totalDown : Nat)
    (url : String) (code : Nat)
    (hmk : ∀ d, env.mkdir d = Except.ok ())
    (hurl : op.patch_file.get_url provider = some url)
    (hf : env.fetch url = HttpResult.badStatus code) :
    downloadLoop sink env provider base fileCount total ((idx, op) :: rest) totalDown
      = (Ev.httpFail url code
          :: (downloadLoop sink env provider base fileCount total rest totalDown).1,
         (downloadLoop sink env provider base fileCount total rest totalDown).2) := by
  have hpf : processFile sink env provider base fileCount total idx op totalDown
      = ([Ev.httpFail url code], Except.ok totalDown) := by
    cases hpd : parentDir (joinPath base op.patch_file.path) <;>
      simp only [processFile, hpd, hmk, hurl, hf]
  simp only [downloadLoop, hpf, List.singleton_append]

/-- Witness for C5: the one-file batch over `opC3` under the 404
environment reduces to the failure report followed by the empty loop. -/
theorem http_fail_skips_file_witness :
    downloadLoop sinkOk envC5 "none" "b" 1 2 [(0, opC3)] 0
      = (Ev.httpFail "u" 404 :: (downloadLoop sinkOk envC5 "none" "b" 1 2 [] 0).1,
         (downloadLoop sinkOk envC5 "none" "b" 1 2 [] 0).2) :=
  http_fail_skips_file sinkOk envC5 "none" "b" 1 2 0 opC3 [] 0 "u" 404
    (fun _ => rfl) rfl rfl

theorem downloadLoop_http_all (sink : Progress → Except String Unit) (env : DlEnv)
    (provider base : String) (fileCount : Nat) (total : Int) :
    ∀ (items : List (Nat × FileOperation)) (totalDown : Nat),
      (∀ pr ∈ items, ∃ url code, pr.2.patch_file.get_url provider = some url
          ∧ env.fetch url = HttpResult.badStatus code) →
      (∀ d, env.mkdir d = Except.ok ()) →
      (downloadLoop sink env provider base fileCount total items totalDown).2 = Except.ok ()
      ∧ ∀ ev ∈ (downloadLoop sink env provider base fileCount total items totalDown).1,
          ∃ url code, ev = Ev.httpFail url code := by
  intro items
  induction items with
  | nil =>
    intro totalDown _ _
    simp [downloadLoop]
  | cons it rest ih =>
    intro totalDown hurl hmk
    obtain ⟨idx, op⟩ := it
    obtain ⟨url, code, hu, hf⟩ := hurl (idx, op) (List.mem_cons_self _ _)
    have hpf : processFile sink env provider base fileCount total idx op totalDown
        = ([Ev.httpFail url code], Except.ok totalDown) := by
      cases hpd : parentDir (joinPath base op.patch_file.path) <;>
        simp only [processFile, hpd, hmk, hu, hf]
    have hrest := ih totalDown (fun pr hpr => hurl pr (List.mem_cons_of_mem _ hpr)) hmk
    simp only [downloadLoop, hpf, List.singleton_append]
    refine ⟨hrest.1, ?_⟩
    intro ev hev
    rcases List.mem_cons.mp hev with h1 | h1
    · exact ⟨url, code, h1⟩
    · exact hrest.2 ev h1

/-- C9 (implicit): when every pending file's GET returns a non-success
status, `download` still returns success; the per-file failures appear
only as report events (the `eprintln!` channel) and never in the overall
result. -/
theorem download_ok_despite_http_failures (t : Transaction)
    (sink : Progress → Except String Unit) (env : DlEnv) (provider : String) (total : Int)
    (htot : t.total_download_size = some total)
    (hmk : ∀ d, env.mkdir d = Except.ok ())
    (hurl : ∀ pr ∈ t.pending.enum, ∃ url code,
        pr.2.patch_file.get_url provider = some url
        ∧ env.fetch url = HttpResult.badStatus code) :
    (t.download sink env provider).2 = Except.ok ()
    ∧ ∀ ev ∈ (t.download sink env provider).1, ∃ url code, ev = Ev.httpFail url code := by
  simp only [Transaction.download, htot]
  exact downloadLoop_http_all sink env provider t.base_path t.pending_count total
    t.pending.enum 0 hurl hmk

/-- Witness for C9: the one-file batch `tC3` under the 404 environment
downloads nothing yet returns success. -/
theorem download_ok_despite_http_failures_witness :
    (tC3.download sinkOk envC5 "none").2 = Except.ok ()
    ∧ ∀ ev ∈ (tC3.download sinkOk envC5 "none").1,
        ∃ url code, ev = Ev.httpFail url code :=
  download_ok_despite_http_failures tC3 sinkOk envC5 "none" 2 rfl (fun _ => rfl)
    (by
      intro pr hpr
      have h : tC3.pending.enum = [(0, opC3)] := rfl
      rw [h] at hpr
      simp only [List.mem_singleton] at hpr
      subst hpr
      exact ⟨"u", 404, rfl, rfl⟩)

theorem runChunks_goodProgress (sink : Progress → Except String Unit) (env : DlEnv)
    (destPath fname : String) (fileIndex fileCount : Nat) (fileSize total : Int)
    (elapsedAt : Nat → ℚ) :
    ∀ (chunks : List (Except String (List Nat))) (chunkIdx downloaded totalDown : Nat)
      (p : Progress),
      Ev.sinkCall p ∈ (runChunks sink env destPath fname fileIndex fileCount fileSize total
        elapsedAt chunks chunkIdx downloaded totalDown).1 →
      GoodProgress p := by
  intro chunks
  induction chunks with
  | nil =>
    intro chunkIdx downloaded totalDown p hp
    simp only [runChunks] at hp
    simp at hp
  | cons c rest ih =>
    intro chunkIdx downloaded totalDown p hp
    cases c with
    | error e =>
      simp only [runChunks] at hp
      simp at hp
    | ok chunk =>
      cases hwc : env.writeChunk destPath chunk with
      | error e =>
        simp only [runChunks, hwc] at hp
        simp at hp
      | ok u =>
        simp only [runChunks, hwc] at hp
        by_cases hfs : fileSize < 0
        · simp only [if_pos hfs] at hp
          simp at hp
        · simp only [if_neg hfs] at hp
          split at hp
          · next e hsp =>
            rcases List.mem_cons.mp hp with h1 | h1
            · simp at h1
            · rcases List.mem_cons.mp h1 with h2 | h2
              · injection h2 with h2
                subst h2
                exact ⟨rfl, rfl, rfl⟩
              · simp at h2
          · next v hsp =>
            rcases List.mem_cons.mp hp with h1 | h1
            · simp at h1
            · rcases List.mem_cons.mp h1 with h2 | h2
              · injection h2 with h2
                subst h2
                exact ⟨rfl, rfl, rfl⟩
              · exact ih (chunkIdx + 1) (downloaded + chunk.length)
                  (totalDown + chunk.length) p h2

theorem processFile_goodProgress (sink : Progress → Except String Unit) (env : DlEnv)
    (provider base : String) (fileCount : Nat) (total : Int)
    (idx : Nat) (op : FileOperation) (totalDown : Nat) (p : Progress)
    (hp : Ev.sinkCall p
        ∈ (processFile sink env provider base fileCount total idx op totalDown).1) :
    GoodProgress p := by
  simp only [processFile] at hp
  split at hp
  · simp at hp
  · split at hp
    · simp at hp
    · split at hp
      · simp at hp
      · simp at hp
      · split at hp
        · simp at hp
        · exact runChunks_goodProgress sink env _ _ _ _ _ _ _ _ _ _ _ p hp

theorem downloadLoop_goodProgress (sink : Progress → Except String Unit) (env : DlEnv)
    (provider base : String) (fileCount : Nat) (total : Int) :
    ∀ (items : List (Nat × FileOperation)) (totalDown : Nat) (p : Progress),
      Ev.sinkCall p ∈ (downloadLoop sink env provider base fileCount total items totalDown).1 →
      GoodProgress p := by
  intro items
  induction items with
  | nil =>
    intro totalDown p hp
    simp only [downloadLoop] at hp
    simp at hp
  | cons it rest ih =>
    intro totalDown p hp
    obtain ⟨idx, op⟩ := it
    simp only [downloadLoop] at hp
    split at hp
    · next e hres =>
      exact processFile_goodProgress sink env provider base fileCount total idx op totalDown p hp
    · next td2 hres =>
      rcases List.mem_append.mp hp with h1 | h1
      · exact processFile_goodProgress sink env provider base fileCount total idx op totalDown p h1
      · exact ih td2 p h1

theorem download_goodProgress (t : Transaction) (sink : Progress → Except String Unit)
    (env : DlEnv) (provider : String) (p : Progress)
    (hp : Ev.sinkCall p ∈ (t.download sink env provider).1) : GoodProgress p := by
  rw [Transaction.download] at hp
  split at hp
  · simp at hp
  · exact downloadLoop_goodProgress sink env provider t.base_path t.pending_count _
      t.pending.enum 0 p hp

theorem tZ6_run : tC3.download sinkOk envZ6 "none"
    = ([Ev.write "b/a.bin" [7], Ev.sinkCall pZ6], Except.ok ()) := by
  norm_num [Transaction.download, tC3, sinkOk, envZ6, opC3, pfC3,
    Transaction.total_download_size, Transaction.pending, Transaction.pending_count,
    downloadLoop, processFile, runChunks, joinPath_c3, parentDir_c3, fileName_c3,
    PatchFile.get_url, pZ6, List.filter, List.enum, List.enumFrom,
    bne_MissPres, Progress.mk.injEq, div_zero]
  decide

/-- C6 counterexample: a chunk can arrive while the wall clock still
reports zero elapsed seconds (run `tC3` under `envZ6`); at that snapshot
one byte has been downloaded and the source's unguarded `f64` division of
the byte count by the elapsed seconds (src/transaction.rs line 327,
modelled by `f64div`) is non-finite — not the finite value 0 the claim
asserts. -/
theorem speed_zero_elapsed_counterexample :
    Ev.sinkCall pZ6 ∈ (tC3.download sinkOk envZ6 "none").1
    ∧ pZ6.elapsed = 0
    ∧ 0 < pZ6.current
    ∧ f64div (pZ6.current : ℚ) pZ6.elapsed = none := by
  refine ⟨by simp [tZ6_run], rfl, by simp [pZ6], ?_⟩
  simp [pZ6, f64div]

/-- C6 (amended): every progress snapshot handed to the sink satisfies
the telemetry formulas: whenever the elapsed time since the file started
is nonzero, the speed is the per-file byte count divided by that elapsed
time (at elapsed 0 the source's unguarded `f64` division yields a
non-finite value, not 0); the ETA is the remaining total divided by the
speed capped at 86400 seconds (0 when the speed is 0, and never above
86400); and the remaining total is the saturating difference of the batch
total and the cumulative downloaded bytes. -/
theorem progress_snapshot_formulas (t : Transaction)
    (sink : Progress → Except String Unit) (env : DlEnv) (provider : String) (p : Progress)
    (hp : Ev.sinkCall p ∈ (t.download sink env provider).1) :
    (p.elapsed ≠ 0 → p.speed = (p.current : ℚ) / p.elapsed)
    ∧ p.expected_time_left
        = (if 0 < p.speed then min ((p.total_amount_left : ℚ) / p.speed) 86400 else 0)
    ∧ (p.speed = 0 → p.expected_time_left = 0)
    ∧ p.expected_time_left ≤ 86400
    ∧ p.total_amount_left = p.total_download_size.toNat - p.total_size_downloaded := by
  obtain ⟨h1, h2, h3⟩ := download_goodProgress t sink env provider p hp
  refine ⟨fun _ => h1, h2, ?_, ?_, h3⟩
  · intro h0
    rw [h2, h0]
    simp
  · rw [h2]
    split
    · exact min_le_right _ _
    · norm_num

/-- Witness for the amended C6 at the first snapshot of the concrete
`tC3` run. -/
theorem progress_snapshot_formulas_witness :
    (p1C3.elapsed ≠ 0 → p1C3.speed = (p1C3.current : ℚ) / p1C3.elapsed)
    ∧ p1C3.expected_time_left
        = (if 0 < p1C3.speed then min ((p1C3.total_amount_left : ℚ) / p1C3.speed) 86400 else 0)
    ∧ (p1C3.speed = 0 → p1C3.expected_time_left = 0)
    ∧ p1C3.expected_time_left ≤ 86400
    ∧ p1C3.total_amount_left
        = p1C3.total_download_size.toNat - p1C3.total_size_downloaded :=
  progress_snapshot_formulas tC3 sinkC3 envC3 "none" p1C3 (by simp [tC3_run])

end Patcher
